import Mathlib

/-!
Shallow embedding of the path-recommendation engine and progress store of the
adaptive-learning server.

Source files embedded here:
* `src/unnamed/part_000` — the enhanced server (`EnhancedDQNModel`, the
  `/api/complete`, `/api/reset-progress`, `/api/suggest-path`, `/api/set-goal`
  handlers, and `checkAchievements`);
* `src/backend/server.js` — the mock server (`MockDQNModel.generatePathTo`,
  `MockDQNModel.getResourcePositions`, embedded with a `mock` name qualifier
  where the enhanced server already uses the name).

Modelling conventions:
* JS `Set` of strings is a `List String` with `setAdd` (append if absent),
  which matches insertion-ordered `Set.add`; `size` is `List.length`.
* JS numbers used as grid coordinates are `Int` (the server only ever adds or
  subtracts 1 and compares); the normalized catalog coordinates are `ℚ`.
* `Math.random()` draws are an oracle `coin : Nat → Bool` indexed by the loop
  counter (`true` means `Math.random() < 0.5`); the synthetic per-step
  `confidence` float (`0.8 + Math.random() * 0.15`) carries no control flow
  and is omitted from the step record.
* The `extractedData` catalog is loaded from a data file that is not part of
  the sources; every definition that reads it is parameterized by
  `catalog : List CatalogEntry` (name with its two normalized coordinates).
* `sessionStartTime` (`Date.now()`) and history timestamps are wall-clock
  values with no influence on any claim and are omitted from the state.
-/

/-- Grid width, `this.gridSizeX = 20` in the `EnhancedDQNModel` constructor. -/
def gridSizeX : Nat := 20

/-- Grid height, `this.gridSizeY = 20` in the `EnhancedDQNModel` constructor. -/
def gridSizeY : Nat := 20

/-- Step bound of `EnhancedDQNModel.generateDQNPath` (`const maxSteps = 20`). -/
def maxSteps : Nat := 20

/-- A grid position `{x, y}`. -/
structure GridPos where
  x : Int
  y : Int
deriving DecidableEq, Repr

/-- One entry of the `extractedData` catalog: a resource name together with its
normalized planar coordinates (`data.x_coordinate`, `data.y_coordinate`). -/
structure CatalogEntry where
  name : String
  xCoord : ℚ
  yCoord : ℚ
deriving DecidableEq

/-- A resource with its integer grid cell, as produced by
`getResourcePositions`. -/
structure ResourcePos where
  name : String
  x : Int
  y : Int
deriving DecidableEq, Repr

/-- A path step of the enhanced generator: `{x, y, action, step}` (sentinel
steps produced by `predictPath` carry no step index, hence `Option`).  The
synthetic random `confidence` field is omitted (see module comment). -/
structure PathStep where
  x : Int
  y : Int
  action : String
  step : Option Nat
deriving DecidableEq, Repr

/-- A path step of the mock generator: `{x, y, action}`. -/
structure MockStep where
  x : Int
  y : Int
  action : String
deriving DecidableEq, Repr

/-- `EnhancedDQNModel._loadPrerequisites()`: the static resource → prerequisite
list mapping, verbatim. -/
def prerequisitesList : List (String × List String) :=
  [ ("Logical Equivalence", ["Introduction to Mathematical Logic"]),
    ("Rules of Inference", ["Introduction to Mathematical Logic", "Logical Equivalence"]),
    ("Resolution", ["Logical Equivalence", "Rules of Inference"]),
    ("SAT Problem", ["Logical Equivalence", "Rules of Inference"]),
    ("Tutorial 1: Part I", ["Introduction to Mathematical Logic", "Logical Equivalence"]),
    ("Tutorial 1: Part II", ["Tutorial 1: Part I", "Rules of Inference"]),
    ("Predicate Logic", ["Rules of Inference", "Resolution"]),
    ("Rules of Inferences in Predicate Logic", ["Predicate Logic"]),
    ("Proof Strategies I", ["Rules of Inference", "Predicate Logic"]),
    ("Proof Strategies II", ["Proof Strategies I"]),
    ("Induction", ["Proof Strategies I"]),
    ("Tutorial 2: Part I", ["Predicate Logic", "Proof Strategies I"]),
    ("Tutorial 2: Part II", ["Tutorial 2: Part I", "Induction"]),
    ("Sets", ["Introduction to Mathematical Logic"]),
    ("Relations", ["Sets"]),
    ("Operations on Relations", ["Relations"]),
    ("Functions", ["Relations", "Sets"]),
    ("Graph Theory Basics", ["Sets", "Relations"]),
    ("Basic Rules of Counting", ["Sets"]),
    ("Modular Arithmetic", ["Basic Rules of Counting"]),
    ("Group Theory", ["Modular Arithmetic"]),
    ("Applications of Finite Fields", ["Group Theory"]) ]

/-- `this.prerequisites[resourceName] || []`. -/
def prerequisitesOf (resourceName : String) : List String :=
  (List.lookup resourceName prerequisitesList).getD []

/-- The `"basic_logic"` learning path of `_loadLearningPaths()`. -/
def basicLogicPath : List String :=
  [ "Introduction to Mathematical Logic",
    "Logical Equivalence",
    "Rules of Inference",
    "Tutorial 1: Part I" ]

/-- The `"complete_course"` learning path of `_loadLearningPaths()`. -/
def completeCoursePath : List String :=
  [ "Introduction to Mathematical Logic",
    "Logical Equivalence",
    "Rules of Inference",
    "Sets",
    "Relations",
    "Functions",
    "Basic Rules of Counting",
    "Graph Theory Basics",
    "Modular Arithmetic",
    "Group Theory" ]

/-- `EnhancedDQNModel._loadLearningPaths()`. -/
def learningPaths : List (String × List String) :=
  [("basic_logic", basicLogicPath), ("complete_course", completeCoursePath)]

/-- `EnhancedDQNModel.checkPrerequisites(resourceName, completedResources)`:
`prerequisites.every(prereq => completedResources.has(prereq))`.  A pure
function of its two arguments (the JS method reads no mutable state). -/
def checkPrerequisites (resourceName : String) (completed : List String) : Bool :=
  (prerequisitesOf resourceName).all fun p => completed.contains p

/-- `EnhancedDQNModel.getResourcePositions()`: scale each normalized
coordinate by the grid dimension, floor, and clamp into
`[0, gridSize − 1]` (`Math.max(0, Math.min(x, this.gridSizeX - 1))`). -/
def getResourcePositions (catalog : List CatalogEntry) : List ResourcePos :=
  catalog.map fun e =>
    { name := e.name
      x := max 0 (min ⌊e.xCoord * (gridSizeX : ℚ)⌋ ((gridSizeX : Int) - 1))
      y := max 0 (min ⌊e.yCoord * (gridSizeY : ℚ)⌋ ((gridSizeY : Int) - 1)) }

/-- `EnhancedDQNModel.getAvailableResources(completedResources)`: catalog
resources that are not completed and whose prerequisites are met, in catalog
iteration order. -/
def getAvailableResources (catalog : List CatalogEntry) (completed : List String) :
    List ResourcePos :=
  (getResourcePositions catalog).filter fun r =>
    !completed.contains r.name && checkPrerequisites r.name completed

/-- `EnhancedDQNModel.getNextRecommendedResource(completedResources, goal)`:
first not-completed, available resource of the goal's learning path (with
`this.learningPaths[goal] || this.learningPaths["complete_course"]`), else the
first available catalog resource, else `null`. -/
def getNextRecommendedResource (catalog : List CatalogEntry) (completed : List String)
    (goal : String) : Option String :=
  let learningPath := (List.lookup goal learningPaths).getD completeCoursePath
  match learningPath.find? (fun r => !completed.contains r && checkPrerequisites r completed) with
  | some r => some r
  | none =>
    match getAvailableResources catalog completed with
    | [] => none
    | r :: _ => some r.name

/-- Loop body and guard of `EnhancedDQNModel.generateDQNPath`, with the fuel
argument standing for `maxSteps - steps` (so `fuel = 0` is exactly the guard
`steps < maxSteps` failing).  The two-phase body is kept: first the action is
chosen (`none` encodes the `break` of the final `else`), then it is applied
only if the destination stays inside the grid (the other `break`). -/
def generateDQNPathAux (coin : Nat → Bool) (target : GridPos) :
    Nat → GridPos → Nat → List PathStep
  | 0, _, _ => []
  | fuel + 1, current, steps =>
    if current.x = target.x ∧ current.y = target.y then []
    else
      match (if current.x < target.x ∧ current.y < target.y then
               some (if coin steps then 1 else 0)
             else if current.x < target.x then some 1
             else if current.y < target.y then some 0
             else none : Option Nat) with
      | none => []
      | some action =>
        if action = 0 ∧ current.y < (gridSizeY : Int) - 1 then
          { x := current.x, y := current.y + 1, action := "UP", step := some (steps + 1) }
            :: generateDQNPathAux coin target fuel ⟨current.x, current.y + 1⟩ (steps + 1)
        else if action = 1 ∧ current.x < (gridSizeX : Int) - 1 then
          { x := current.x + 1, y := current.y, action := "RIGHT", step := some (steps + 1) }
            :: generateDQNPathAux coin target fuel ⟨current.x + 1, current.y⟩ (steps + 1)
        else []

/-- `EnhancedDQNModel.generateDQNPath(start, target)`. -/
def generateDQNPath (coin : Nat → Bool) (start target : GridPos) : List PathStep :=
  generateDQNPathAux coin target maxSteps start 0

/-- Loop of `MockDQNModel.generatePathTo`: move along the x axis toward the
target, then along the y axis, pushing one step per iteration, and stop once
`path.length > 50` (so the 51st step is still pushed); the fuel argument
stands for `51 - path.length`.  The final `else []` arm is unreachable for
integer positions: if no axis differs the loop guard has already stopped the
walk. -/
def generatePathToAux (target : GridPos) : Nat → GridPos → List MockStep
  | 0, _ => []
  | fuel + 1, current =>
    if current.x = target.x ∧ current.y = target.y then []
    else if current.x < target.x then
      { x := current.x + 1, y := current.y, action := "right" }
        :: generatePathToAux target fuel ⟨current.x + 1, current.y⟩
    else if current.x > target.x then
      { x := current.x - 1, y := current.y, action := "left" }
        :: generatePathToAux target fuel ⟨current.x - 1, current.y⟩
    else if current.y < target.y then
      { x := current.x, y := current.y + 1, action := "up" }
        :: generatePathToAux target fuel ⟨current.x, current.y + 1⟩
    else if current.y > target.y then
      { x := current.x, y := current.y - 1, action := "down" }
        :: generatePathToAux target fuel ⟨current.x, current.y - 1⟩
    else []

/-- `MockDQNModel.generatePathTo(start, target)` of `src/backend/server.js`. -/
def generatePathTo (start target : GridPos) : List MockStep :=
  generatePathToAux target 51 start

/-- `MockDQNModel.getResourcePositions()` of `src/backend/server.js`: scale
each normalized coordinate by `SCALE = 100`, floor, and (when the catalog is
nonempty) shift every position by the componentwise minimum.  No clamping. -/
def mockGetResourcePositions (catalog : List CatalogEntry) : List ResourcePos :=
  let scaled := catalog.map fun e =>
    ({ name := e.name, x := ⌊e.xCoord * (100 : ℚ)⌋, y := ⌊e.yCoord * (100 : ℚ)⌋ }
      : ResourcePos)
  match scaled with
  | [] => []
  | r0 :: rest =>
    let minX := (rest.map (fun r => r.x)).foldl min r0.x
    let minY := (rest.map (fun r => r.y)).foldl min r0.y
    (r0 :: rest).map fun r => { name := r.name, x := r.x - minX, y := r.y - minY }

/-- One record of `learnerProgress.pathHistory` (timestamp and synthetic
confidence omitted, see module comment). -/
structure PathRecord where
  path : List PathStep
  fromPosition : GridPos
  goal : String
deriving DecidableEq

/-- The mutable `learnerProgress` object of the enhanced server
(`sessionStartTime` omitted, see module comment). -/
structure LearnerProgress where
  completedResources : List String
  currentPosition : GridPos
  totalResources : Nat
  score : Nat
  pathHistory : List PathRecord
  currentGoal : String
  achievements : List String
deriving DecidableEq

/-- JS `Set.add`: append the element if it is not already a member. -/
def setAdd (s : List String) (x : String) : List String :=
  if x ∈ s then s else s ++ [x]

/-- The initial `learnerProgress` value; `total` stands for
`Object.keys(extractedData).length`. -/
def initialProgress (total : Nat) : LearnerProgress :=
  { completedResources := []
    currentPosition := ⟨0, 0⟩
    totalResources := total
    score := 0
    pathHistory := []
    currentGoal := "complete_course"
    achievements := [] }

/-- The `/api/reset-progress` handler: replace the whole state with a fresh
instance. -/
def resetProgress (total : Nat) (_ : LearnerProgress) : LearnerProgress :=
  initialProgress total

/-- The achievement thresholds and names of `checkAchievements`, in source
order. -/
def achievementThresholds : List (Nat × String) :=
  [ (1, "First Steps"),
    (5, "Getting Started"),
    (10, "Making Progress"),
    (20, "Dedicated Learner"),
    (50, "Expert") ]

/-- The `checkAchievements()` helper: for every threshold reached whose
achievement is not yet held, append its name (the five `if` statements,
folded over `achievementThresholds` in the same order). -/
def checkAchievements (s : LearnerProgress) : LearnerProgress :=
  let completed := s.completedResources.length
  let newAchievements := achievementThresholds.filterMap fun p =>
    if completed ≥ p.1 ∧ p.2 ∉ s.achievements then some p.2 else none
  { s with achievements := s.achievements ++ newAchievements }

/-- Outcome of the `/api/complete` handler: the 400 response for a missing
name, the 400 response carrying `dqnModel.prerequisites[resourceName] || []`,
or the success response. -/
inductive CompleteOutcome where
  | missingName
  | prereqsNotMet (prerequisites : List String)
  | success
deriving DecidableEq, Repr

/-- The `/api/complete` handler of the enhanced server (`markCompleted` in the
spec): reject a falsy name, reject when prerequisites are unmet (leaving the
state untouched), otherwise add the resource, update the position when one is
supplied, add 10 to the score and re-check achievements.  The catalog is not
consulted at all. -/
def markCompleted (s : LearnerProgress) (resourceName : String) (position : Option GridPos) :
    CompleteOutcome × LearnerProgress :=
  if resourceName = "" then (CompleteOutcome.missingName, s)
  else if ¬ checkPrerequisites resourceName s.completedResources then
    (CompleteOutcome.prereqsNotMet (prerequisitesOf resourceName), s)
  else
    (CompleteOutcome.success,
      checkAchievements
        { s with
          completedResources := setAdd s.completedResources resourceName
          currentPosition := position.getD s.currentPosition
          score := s.score + 10 })

/-- `EnhancedDQNModel.predictPath(currentPos, completedResources, goal)`:
sentinel single-step paths for the no-available / path-complete /
resource-not-found cases, otherwise a DQN walk to the recommended resource. -/
def predictPath (catalog : List CatalogEntry) (coin : Nat → Bool) (currentPos : GridPos)
    (completed : List String) (goal : String) : List PathStep :=
  let resources := getResourcePositions catalog
  if (getAvailableResources catalog completed).length = 0 then
    [{ x := (gridSizeX : Int) - 1, y := (gridSizeY : Int) - 1,
       action := "goal_reached", step := none }]
  else
    match getNextRecommendedResource catalog completed goal with
    | none =>
      [{ x := (gridSizeX : Int) - 1, y := (gridSizeY : Int) - 1,
         action := "path_complete", step := none }]
    | some nextResource =>
      match resources.find? fun r => r.name == nextResource with
      | none =>
        [{ x := (gridSizeX : Int) - 1, y := (gridSizeY : Int) - 1,
           action := "resource_not_found", step := none }]
      | some t => generateDQNPath coin currentPos ⟨t.x, t.y⟩

/-- The `/api/suggest-path` handler: compute a path from the supplied (or
current) position toward the supplied (or current) goal and append it to the
history; no other field changes. -/
def suggestPathOp (catalog : List CatalogEntry) (coin : Nat → Bool)
    (position : Option GridPos) (goal : Option String) (s : LearnerProgress) :
    LearnerProgress :=
  let currentPos := position.getD s.currentPosition
  let learningGoal := goal.getD s.currentGoal
  let suggestedPath := predictPath catalog coin currentPos s.completedResources learningGoal
  { s with pathHistory := s.pathHistory ++
      [{ path := suggestedPath, fromPosition := currentPos, goal := learningGoal }] }

/-- The `/api/set-goal` handler: reject unknown goals, otherwise update the
current goal (nothing else changes). -/
def setGoalOp (goal : String) (s : LearnerProgress) : LearnerProgress :=
  if (List.lookup goal learningPaths).isNone then s
  else { s with currentGoal := goal }

/-- One client request that can mutate the progress store. -/
inductive ServerOp where
  | complete (resourceName : String) (position : Option GridPos)
  | suggestPath (coin : Nat → Bool) (position : Option GridPos) (goal : Option String)
  | setGoal (goal : String)
  | reset

/-- Whether the operation is the full reset. -/
def ServerOp.isReset : ServerOp → Bool
  | .reset => true
  | _ => false

/-- Apply one request to the progress store. -/
def applyOp (catalog : List CatalogEntry) (s : LearnerProgress) : ServerOp → LearnerProgress
  | .complete name pos => (markCompleted s name pos).2
  | .suggestPath coin pos goal => suggestPathOp catalog coin pos goal s
  | .setGoal g => setGoalOp g s
  | .reset => resetProgress catalog.length s

/-- Run a sequence of requests. -/
def runOps (catalog : List CatalogEntry) (ops : List ServerOp) (s : LearnerProgress) :
    LearnerProgress :=
  ops.foldl (applyOp catalog) s

/-! Definitions below are written from the specification's words, for
comparison with (or statements about) the source definitions above. -/

/-- The spec's "missing prerequisites" of a resource: the prerequisites that
are not members of the completed set. -/
def missingPrerequisites (resourceName : String) (completed : List String) : List String :=
  (prerequisitesOf resourceName).filter fun p => !completed.contains p

/-- Spec reading of step 1 of `recommendNext` (claim C2): the first resource
of the list that is not completed and has every prerequisite completed. -/
def firstEligibleInPath (completed : List String) : List String → Option String
  | [] => none
  | r :: rest =>
    if r ∉ completed ∧ ∀ p ∈ prerequisitesOf r, p ∈ completed then some r
    else firstEligibleInPath completed rest

/-- Spec reading of step 2 of `recommendNext` (claim C2): the first
not-completed, available resource in catalog-iteration order. -/
def firstAvailableInCatalog (completed : List String) : List ResourcePos → Option String
  | [] => none
  | r :: rest =>
    if r.name ∉ completed ∧ ∀ p ∈ prerequisitesOf r.name, p ∈ completed then some r.name
    else firstAvailableInCatalog completed rest

/-- `recommendNext` as the spec words it (claim C2): scan the goal's learning
path (default path when the goal is unrecognized), then the catalog, else
signal no recommendation. -/
def recommendNextSpec (catalog : List CatalogEntry) (completed : List String)
    (goal : String) : Option String :=
  let path := (List.lookup goal learningPaths).getD completeCoursePath
  match firstEligibleInPath completed path with
  | some r => some r
  | none => firstAvailableInCatalog completed (getResourcePositions catalog)

/-- The grid cell at which a step sequence leaves the walker that started at
`start`: the coordinates of the last step, or `start` for an empty path. -/
def pathEnd (start : GridPos) : List PathStep → GridPos
  | [] => start
  | st :: rest => pathEnd ⟨st.x, st.y⟩ rest

/-- `pathEnd` for the mock generator's steps. -/
def mockPathEnd (start : GridPos) : List MockStep → GridPos
  | [] => start
  | st :: rest => mockPathEnd ⟨st.x, st.y⟩ rest

/-- Manhattan distance between two grid cells. -/
def manhattanDist (p q : GridPos) : Nat :=
  (p.x - q.x).natAbs + (p.y - q.y).natAbs

/-- One unit grid move that advances an axis still short of the target:
the relation holding between consecutive positions of an enhanced path. -/
def unitStepToward (target p q : GridPos) : Prop :=
  (q = ⟨p.x + 1, p.y⟩ ∧ p.x < target.x) ∨ (q = ⟨p.x, p.y + 1⟩ ∧ p.y < target.y)

/-- A resource name certainly outside both the catalog and the prerequisite
map (every key of `prerequisitesList` starts with an uppercase letter): `i+1`
copies of the letter a. -/
def freshName (i : Nat) : String :=
  String.mk (List.replicate (i + 1) 'a')

/-- Completion requests for `n` distinct names outside the prerequisite map. -/
def freshCompletions (n : Nat) : List ServerOp :=
  (List.range n).map fun i => ServerOp.complete (freshName i) none

/-- Invariant of reachable progress states used for claim C8: the unlocked
achievement list has no duplicates, and every threshold at or below the
completed count has its achievement unlocked. -/
def AchievementInv (s : LearnerProgress) : Prop :=
  s.achievements.Nodup ∧
  ∀ p ∈ achievementThresholds, s.completedResources.length ≥ p.1 → p.2 ∈ s.achievements

/-! Helper lemmas shared by several claims. -/

lemma contains_eq_true_iff {l : List String} {a : String} : l.contains a = true ↔ a ∈ l :=
  List.elem_iff

lemma checkPrerequisites_eq_true_iff (r : String) (C : List String) :
    checkPrerequisites r C = true ↔ ∀ p ∈ prerequisitesOf r, p ∈ C := by
  simp only [checkPrerequisites, List.all_eq_true, contains_eq_true_iff]

lemma setAdd_of_mem {s : List String} {x : String} (h : x ∈ s) : setAdd s x = s := by
  simp [setAdd, h]

lemma mem_setAdd_self (s : List String) (x : String) : x ∈ setAdd s x := by
  by_cases h : x ∈ s <;> simp [setAdd, h]

lemma markCompleted_success_eq (s : LearnerProgress) (R : String) (pos : Option GridPos)
    (hname : R ≠ "") (hpre : checkPrerequisites R s.completedResources = true) :
    markCompleted s R pos =
      (CompleteOutcome.success,
        checkAchievements
          { s with
            completedResources := setAdd s.completedResources R
            currentPosition := pos.getD s.currentPosition
            score := s.score + 10 }) := by
  simp [markCompleted, hname, hpre]

/-- C3: `isAvailable(R, C)` (the source's `checkPrerequisites`) is true iff
every prerequisite of R is a member of C, and a name absent from the
prerequisite map is always available.  The predicate is embedded as a pure
Lean function of its two arguments, matching the side-effect-free JS method. -/
theorem claim_C3_isAvailable (R : String) (C : List String) :
    (checkPrerequisites R C = true ↔ ∀ p ∈ prerequisitesOf R, p ∈ C) ∧
    (List.lookup R prerequisitesList = none → checkPrerequisites R C = true) := by
  refine ⟨checkPrerequisites_eq_true_iff R C, fun h => ?_⟩
  simp [checkPrerequisites, prerequisitesOf, h]

/-- Witness for C3 at a concrete resource with a satisfied prerequisite and a
concrete name absent from the prerequisite map. -/
theorem claim_C3_witness :
    (checkPrerequisites "Sets" ["Introduction to Mathematical Logic"] = true ↔
      ∀ p ∈ prerequisitesOf "Sets", p ∈ ["Introduction to Mathematical Logic"]) ∧
    checkPrerequisites "Euler Circuits" [] = true :=
  ⟨(claim_C3_isAvailable "Sets" ["Introduction to Mathematical Logic"]).1,
   (claim_C3_isAvailable "Euler Circuits" []).2 (by decide)⟩

/-- C7: after `resetProgress()` the state is a fresh instance — completed set
empty, score 0, position at the origin, history empty, goal back to the
default `"complete_course"`, achievements empty — regardless of prior state. -/
theorem claim_C7_reset (total : Nat) (s : LearnerProgress) :
    (resetProgress total s).completedResources = [] ∧
    (resetProgress total s).score = 0 ∧
    (resetProgress total s).currentPosition = ⟨0, 0⟩ ∧
    (resetProgress total s).pathHistory = [] ∧
    (resetProgress total s).currentGoal = "complete_course" ∧
    (resetProgress total s).achievements = [] :=
  ⟨rfl, rfl, rfl, rfl, rfl, rfl⟩

/-- C6: every successful `markCompleted(R)` adds R to the completed set and
adds exactly 10 to the score; when R is already completed the completed set is
left unchanged (the `Set.add` is a no-op) while the score is still increased
by 10 on every such call. -/
theorem claim_C6_complete_effects (s : LearnerProgress) (R : String) (pos : Option GridPos)
    (hname : R ≠ "") (hpre : checkPrerequisites R s.completedResources = true) :
    (markCompleted s R pos).1 = CompleteOutcome.success ∧
    (markCompleted s R pos).2.completedResources = setAdd s.completedResources R ∧
    R ∈ (markCompleted s R pos).2.completedResources ∧
    (markCompleted s R pos).2.score = s.score + 10 ∧
    (R ∈ s.completedResources →
      (markCompleted s R pos).2.completedResources = s.completedResources) := by
  rw [markCompleted_success_eq s R pos hname hpre]
  refine ⟨rfl, rfl, mem_setAdd_self _ _, rfl, fun hmem => ?_⟩
  show setAdd s.completedResources R = s.completedResources
  exact setAdd_of_mem hmem

/-- Witness for C6: re-completing an already-completed resource with no
prerequisites succeeds, leaves the one-element completed set unchanged, and
still adds 10 to the score. -/
theorem claim_C6_witness :
    (markCompleted
        { initialProgress 0 with completedResources := ["Introduction to Mathematical Logic"] }
        "Introduction to Mathematical Logic" none).1 = CompleteOutcome.success ∧
    (markCompleted
        { initialProgress 0 with completedResources := ["Introduction to Mathematical Logic"] }
        "Introduction to Mathematical Logic" none).2.completedResources =
      setAdd ["Introduction to Mathematical Logic"] "Introduction to Mathematical Logic" ∧
    "Introduction to Mathematical Logic" ∈ (markCompleted
        { initialProgress 0 with completedResources := ["Introduction to Mathematical Logic"] }
        "Introduction to Mathematical Logic" none).2.completedResources ∧
    (markCompleted
        { initialProgress 0 with completedResources := ["Introduction to Mathematical Logic"] }
        "Introduction to Mathematical Logic" none).2.score =
      ({ initialProgress 0 with
          completedResources := ["Introduction to Mathematical Logic"] } :
        LearnerProgress).score + 10 ∧
    ("Introduction to Mathematical Logic" ∈
        ({ initialProgress 0 with
            completedResources := ["Introduction to Mathematical Logic"] } :
          LearnerProgress).completedResources →
      (markCompleted
          { initialProgress 0 with completedResources := ["Introduction to Mathematical Logic"] }
          "Introduction to Mathematical Logic" none).2.completedResources =
        ["Introduction to Mathematical Logic"]) :=
  claim_C6_complete_effects
    { initialProgress 0 with completedResources := ["Introduction to Mathematical Logic"] }
    "Introduction to Mathematical Logic" none (by decide) (by decide)

/-- C1 counterexample: with `"Introduction to Mathematical Logic"` completed
and `"Rules of Inference"` requested (its prerequisites are that resource and
`"Logical Equivalence"`), the completion is rejected with the FULL
prerequisite list of the resource, not with exactly the missing
prerequisites (only `"Logical Equivalence"` is missing); the state is left
unchanged. -/
theorem claim_C1_counterexample :
    (markCompleted
        { initialProgress 0 with completedResources := ["Introduction to Mathematical Logic"] }
        "Rules of Inference" none).1 =
      CompleteOutcome.prereqsNotMet
        ["Introduction to Mathematical Logic", "Logical Equivalence"] ∧
    (markCompleted
        { initialProgress 0 with completedResources := ["Introduction to Mathematical Logic"] }
        "Rules of Inference" none).2 =
      { initialProgress 0 with completedResources := ["Introduction to Mathematical Logic"] } ∧
    missingPrerequisites "Rules of Inference" ["Introduction to Mathematical Logic"] =
      ["Logical Equivalence"] ∧
    CompleteOutcome.prereqsNotMet
        ["Introduction to Mathematical Logic", "Logical Equivalence"] ≠
      CompleteOutcome.prereqsNotMet ["Logical Equivalence"] := by
  refine ⟨by decide, by decide, by decide, by decide⟩

/-- C1 (amended): completing a resource with an unmet prerequisite is
rejected and leaves the state entirely unchanged, and the rejection carries
the resource's full prerequisite list — a superset of the missing
prerequisites, equal to them exactly when nothing relevant is completed, as
in the spec's `completed = {}` example. -/
theorem claim_C1_rejection_amended (s : LearnerProgress) (R : String) (pos : Option GridPos)
    (hmiss : ∃ p ∈ prerequisitesOf R, p ∉ s.completedResources) :
    markCompleted s R pos = (CompleteOutcome.prereqsNotMet (prerequisitesOf R), s) ∧
    (∀ p ∈ missingPrerequisites R s.completedResources, p ∈ prerequisitesOf R) ∧
    (s.completedResources = [] →
      missingPrerequisites R s.completedResources = prerequisitesOf R) := by
  obtain ⟨p, hp, hpn⟩ := hmiss
  have hR : R ≠ "" := by
    intro h
    subst h
    have hempty : prerequisitesOf "" = [] := by decide
    rw [hempty] at hp
    exact List.not_mem_nil p hp
  have hpre : ¬ checkPrerequisites R s.completedResources = true := by
    rw [checkPrerequisites_eq_true_iff]
    intro hall
    exact hpn (hall p hp)
  refine ⟨by simp [markCompleted, hR, hpre], ?_, ?_⟩
  · intro q hq
    exact List.mem_of_mem_filter hq
  · intro hC
    simp [missingPrerequisites, hC]

/-- Witness for C1 (amended) at the spec's example shape: nothing completed,
a resource with exactly one prerequisite; the rejection names that (missing)
prerequisite and the completed set stays empty. -/
theorem claim_C1_witness :
    markCompleted (initialProgress 0) "Logical Equivalence" none =
      (CompleteOutcome.prereqsNotMet (prerequisitesOf "Logical Equivalence"),
        initialProgress 0) ∧
    (∀ p ∈ missingPrerequisites "Logical Equivalence" (initialProgress 0).completedResources,
      p ∈ prerequisitesOf "Logical Equivalence") ∧
    ((initialProgress 0).completedResources = [] →
      missingPrerequisites "Logical Equivalence" (initialProgress 0).completedResources =
        prerequisitesOf "Logical Equivalence") :=
  claim_C1_rejection_amended (initialProgress 0) "Logical Equivalence" none
    ⟨"Introduction to Mathematical Logic", by decide, by decide⟩

/-! Machinery for C10: names certainly outside the prerequisite map. -/

lemma freshName_ne_of_head (i : Nat) (s : String) (h : ¬ s.data.head? = some 'a') :
    freshName i ≠ s := by
  intro he
  apply h
  rw [← he]
  show (List.replicate (i + 1) 'a').head? = some 'a'
  simp [List.replicate_succ]

lemma freshName_injective {i j : Nat} (h : freshName i = freshName j) : i = j := by
  have hd : (freshName i).data = (freshName j).data := by rw [h]
  have h2 : (List.replicate (i + 1) 'a').length = (List.replicate (j + 1) 'a').length :=
    congrArg List.length hd
  simp only [List.length_replicate] at h2
  omega

lemma lookup_eq_none_of_beq_false (a : String) :
    ∀ l : List (String × List String), (∀ p ∈ l, (a == p.1) = false) →
      List.lookup a l = none := by
  intro l
  induction l with
  | nil => intro _; rfl
  | cons q rest ih =>
    intro h
    obtain ⟨k, v⟩ := q
    have hk : (a == k) = false := h (k, v) (List.mem_cons_self _ _)
    simp only [List.lookup, hk]
    exact ih fun p hp => h p (List.mem_cons_of_mem _ hp)

lemma lookup_freshName (i : Nat) : List.lookup (freshName i) prerequisitesList = none := by
  apply lookup_eq_none_of_beq_false
  intro p hp
  have hne : ∀ s : String, freshName i ≠ s → (freshName i == s) = false := fun s h =>
    beq_eq_false_iff_ne.mpr h
  fin_cases hp <;> exact hne _ (freshName_ne_of_head i _ (by decide))

lemma prerequisitesOf_freshName (i : Nat) : prerequisitesOf (freshName i) = [] := by
  simp [prerequisitesOf, lookup_freshName]

lemma freshName_ne_empty (i : Nat) : freshName i ≠ "" :=
  freshName_ne_of_head i "" (by decide)

lemma runOps_append (catalog : List CatalogEntry) (l₁ l₂ : List ServerOp)
    (s : LearnerProgress) :
    runOps catalog (l₁ ++ l₂) s = runOps catalog l₂ (runOps catalog l₁ s) :=
  List.foldl_append ..

lemma runOps_freshCompletions (catalog : List CatalogEntry) (n : Nat) :
    (runOps catalog (freshCompletions n) (initialProgress catalog.length)).completedResources
      = (List.range n).map freshName := by
  induction n with
  | zero => rfl
  | succ n ih =>
    have hsplit : freshCompletions (n + 1) =
        freshCompletions n ++ [ServerOp.complete (freshName n) none] := by
      simp [freshCompletions, List.range_succ]
    rw [hsplit, runOps_append]
    set prev := runOps catalog (freshCompletions n) (initialProgress catalog.length) with hprev
    have hpre : checkPrerequisites (freshName n) prev.completedResources = true := by
      simp [checkPrerequisites, prerequisitesOf_freshName]
    have hstep : runOps catalog [ServerOp.complete (freshName n) none] prev =
        (markCompleted prev (freshName n) none).2 := rfl
    rw [hstep, markCompleted_success_eq prev (freshName n) none (freshName_ne_empty n) hpre]
    show setAdd prev.completedResources (freshName n) = (List.range (n + 1)).map freshName
    rw [ih]
    have hnotmem : freshName n ∉ (List.range n).map freshName := by
      intro hmem
      obtain ⟨i, hi, hieq⟩ := List.mem_map.mp hmem
      have := freshName_injective hieq
      subst this
      exact absurd hi (by simp)
    rw [setAdd, if_neg hnotmem, List.range_succ, List.map_append]
    rfl

/-- C10: `markCompleted` never validates catalog membership (it is not even a
function of the catalog): any nonempty name absent from the prerequisite map
has an empty prerequisite list, so completing it succeeds, adds the name to
the completed set and adds 10 to the score; consequently for every catalog
there is a request sequence after which the completed count exceeds the
catalog's resource count. -/
theorem claim_C10_uncatalogued_names :
    (∀ (s : LearnerProgress) (name : String) (pos : Option GridPos),
      name ≠ "" → List.lookup name prerequisitesList = none →
      (markCompleted s name pos).1 = CompleteOutcome.success ∧
      name ∈ (markCompleted s name pos).2.completedResources ∧
      (markCompleted s name pos).2.score = s.score + 10) ∧
    (∀ catalog : List CatalogEntry, ∃ ops : List ServerOp,
      (runOps catalog ops (initialProgress catalog.length)).completedResources.length >
        catalog.length) := by
  constructor
  · intro s name pos hname hlook
    have hpre : checkPrerequisites name s.completedResources = true := by
      simp [checkPrerequisites, prerequisitesOf, hlook]
    rw [markCompleted_success_eq s name pos hname hpre]
    exact ⟨rfl, mem_setAdd_self _ _, rfl⟩
  · intro catalog
    refine ⟨freshCompletions (catalog.length + 1), ?_⟩
    rw [runOps_freshCompletions]
    simp

/-- Witness for C10: completing the uncatalogued name `"Quantum Computing"`
from the fresh state succeeds and scores 10, and over the empty catalog a
request sequence pushes the completed count above the catalog size. -/
theorem claim_C10_witness :
    ((markCompleted (initialProgress 0) "Quantum Computing" none).1 =
        CompleteOutcome.success ∧
      "Quantum Computing" ∈
        (markCompleted (initialProgress 0) "Quantum Computing" none).2.completedResources ∧
      (markCompleted (initialProgress 0) "Quantum Computing" none).2.score =
        (initialProgress 0).score + 10) ∧
    (∃ ops : List ServerOp,
      (runOps [] ops
          (initialProgress ([] : List CatalogEntry).length)).completedResources.length >
        ([] : List CatalogEntry).length) :=
  ⟨claim_C10_uncatalogued_names.1 (initialProgress 0) "Quantum Computing" none
      (by decide) (by decide),
    claim_C10_uncatalogued_names.2 []⟩

/-! Machinery for C2: the JS loop/filter control flow equals the spec's
first-match scans. -/

lemma eligible_bool_iff (completed : List String) (r : String) :
    (!completed.contains r && checkPrerequisites r completed) = true ↔
      (r ∉ completed ∧ ∀ p ∈ prerequisitesOf r, p ∈ completed) := by
  rw [Bool.and_eq_true, Bool.not_eq_true', ← checkPrerequisites_eq_true_iff]
  constructor
  · rintro ⟨h1, h2⟩
    refine ⟨fun hm => ?_, h2⟩
    rw [contains_eq_true_iff.mpr hm] at h1
    simp at h1
  · rintro ⟨h1, h2⟩
    refine ⟨?_, h2⟩
    cases hcon : completed.contains r
    · rfl
    · exact absurd (contains_eq_true_iff.mp hcon) h1

lemma eligible_bool_false (completed : List String) (r : String)
    (hP : ¬ (r ∉ completed ∧ ∀ p ∈ prerequisitesOf r, p ∈ completed)) :
    (!completed.contains r && checkPrerequisites r completed) = false := by
  cases hval : (!completed.contains r && checkPrerequisites r completed)
  · rfl
  · exact absurd ((eligible_bool_iff completed r).mp hval) hP

lemma find?_eq_firstEligibleInPath (completed : List String) :
    ∀ l : List String,
      l.find? (fun r => !completed.contains r && checkPrerequisites r completed) =
        firstEligibleInPath completed l := by
  intro l
  induction l with
  | nil => rfl
  | cons r rest ih =>
    by_cases hP : r ∉ completed ∧ ∀ p ∈ prerequisitesOf r, p ∈ completed
    · have hb := (eligible_bool_iff completed r).mpr hP
      rw [show List.find? (fun s => !completed.contains s && checkPrerequisites s completed)
          (r :: rest) = some r from by simp only [List.find?]; rw [hb]]
      rw [firstEligibleInPath, if_pos hP]
    · have hb := eligible_bool_false completed r hP
      rw [show List.find? (fun s => !completed.contains s && checkPrerequisites s completed)
            (r :: rest) =
          List.find? (fun s => !completed.contains s && checkPrerequisites s completed) rest
          from by simp only [List.find?]; rw [hb]]
      rw [firstEligibleInPath, if_neg hP, ih]

lemma availHead_eq_firstAvailableInCatalog (completed : List String) :
    ∀ l : List ResourcePos,
      (match l.filter (fun r => !completed.contains r.name && checkPrerequisites r.name completed)
        with
        | [] => none
        | r :: _ => some r.name) = firstAvailableInCatalog completed l := by
  intro l
  induction l with
  | nil => rfl
  | cons r rest ih =>
    by_cases hP : r.name ∉ completed ∧ ∀ p ∈ prerequisitesOf r.name, p ∈ completed
    · have hb := (eligible_bool_iff completed r.name).mpr hP
      rw [show List.filter
            (fun q => !completed.contains q.name && checkPrerequisites q.name completed)
            (r :: rest) =
          r :: List.filter
            (fun q => !completed.contains q.name && checkPrerequisites q.name completed) rest
          from by simp only [List.filter]; rw [hb]]
      rw [firstAvailableInCatalog, if_pos hP]
    · have hb := eligible_bool_false completed r.name hP
      rw [show List.filter
            (fun q => !completed.contains q.name && checkPrerequisites q.name completed)
            (r :: rest) =
          List.filter
            (fun q => !completed.contains q.name && checkPrerequisites q.name completed) rest
          from by simp only [List.filter]; rw [hb]]
      rw [firstAvailableInCatalog, if_neg hP, ih]

/-- C2: `recommendNext` behaves exactly as the spec words it — first
not-completed resource of the goal's learning path (default path when the goal
is unrecognized) whose prerequisites are all completed; failing that, the
first not-completed available resource in catalog order; failing that, no
recommendation (`none`, not an error). -/
theorem claim_C2_recommendNext (catalog : List CatalogEntry) (completed : List String)
    (goal : String) :
    getNextRecommendedResource catalog completed goal =
      recommendNextSpec catalog completed goal := by
  simp only [getNextRecommendedResource, recommendNextSpec]
  rw [find?_eq_firstEligibleInPath]
  cases hE : firstEligibleInPath completed ((List.lookup goal learningPaths).getD completeCoursePath)
  · show (match getAvailableResources catalog completed with
      | [] => none
      | r :: _ => some r.name) = firstAvailableInCatalog completed (getResourcePositions catalog)
    rw [show getAvailableResources catalog completed =
        (getResourcePositions catalog).filter
          (fun r => !completed.contains r.name && checkPrerequisites r.name completed) from rfl]
    exact availHead_eq_firstAvailableInCatalog completed (getResourcePositions catalog)
  · rfl

/-! Machinery for C8: the achievement list of any reachable state. -/

lemma filterMap_if_sublist {α β : Type} (f : α → β) (P : α → Prop) [DecidablePred P] :
    ∀ l : List α,
      List.Sublist (l.filterMap fun a => if P a then some (f a) else none) (l.map f) := by
  intro l
  induction l with
  | nil => exact List.Sublist.refl _
  | cons a rest ih =>
    by_cases h : P a
    · simp only [List.filterMap_cons, List.map_cons, if_pos h]
      exact List.Sublist.cons₂ _ ih
    · simp only [List.filterMap_cons, List.map_cons, if_neg h]
      exact List.Sublist.cons _ ih

lemma checkAchievements_achievements_eq (s : LearnerProgress) :
    (checkAchievements s).achievements = s.achievements ++
      (achievementThresholds.filterMap fun p =>
        if s.completedResources.length ≥ p.1 ∧ p.2 ∉ s.achievements then some p.2 else none) :=
  rfl

lemma checkAchievements_nodup (s : LearnerProgress) (h : s.achievements.Nodup) :
    (checkAchievements s).achievements.Nodup := by
  rw [checkAchievements_achievements_eq, List.nodup_append]
  refine ⟨h, ?_, ?_⟩
  · exact (by decide : (achievementThresholds.map Prod.snd).Nodup).sublist
      (filterMap_if_sublist Prod.snd
        (fun p => s.completedResources.length ≥ p.1 ∧ p.2 ∉ s.achievements)
        achievementThresholds)
  · intro a ha hnew
    obtain ⟨p, hp, hpe⟩ := List.mem_filterMap.mp hnew
    by_cases hc : s.completedResources.length ≥ p.1 ∧ p.2 ∉ s.achievements
    · rw [if_pos hc] at hpe
      injection hpe with h2
      subst h2
      exact hc.2 ha
    · rw [if_neg hc] at hpe
      cases hpe

lemma checkAchievements_coverage (s : LearnerProgress) :
    ∀ p ∈ achievementThresholds, s.completedResources.length ≥ p.1 →
      p.2 ∈ (checkAchievements s).achievements := by
  intro p hp hge
  rw [checkAchievements_achievements_eq, List.mem_append]
  by_cases hmem : p.2 ∈ s.achievements
  · exact Or.inl hmem
  · refine Or.inr (List.mem_filterMap.mpr ⟨p, hp, ?_⟩)
    rw [if_pos ⟨hge, hmem⟩]

lemma applyOp_achievements_append (catalog : List CatalogEntry) (s : LearnerProgress)
    (op : ServerOp) (h : op.isReset = false) :
    ∃ t, (applyOp catalog s op).achievements = s.achievements ++ t := by
  cases op with
  | complete name pos =>
    by_cases h1 : name = ""
    · exact ⟨[], by simp [applyOp, markCompleted, h1]⟩
    · by_cases h2 : checkPrerequisites name s.completedResources = true
      · refine ⟨achievementThresholds.filterMap fun p =>
            if (setAdd s.completedResources name).length ≥ p.1 ∧ p.2 ∉ s.achievements
            then some p.2 else none, ?_⟩
        rw [show applyOp catalog s (.complete name pos) = (markCompleted s name pos).2 from rfl,
          markCompleted_success_eq s name pos h1 h2]
        rfl
      · exact ⟨[], by simp [applyOp, markCompleted, h1, h2]⟩
  | suggestPath coin pos goal => exact ⟨[], by simp [applyOp, suggestPathOp]⟩
  | setGoal g =>
    by_cases h1 : (List.lookup g learningPaths).isNone
    · exact ⟨[], by simp [applyOp, setGoalOp, h1]⟩
    · exact ⟨[], by simp [applyOp, setGoalOp, h1]⟩
  | reset => simp [ServerOp.isReset] at h

lemma achievementInv_initial (total : Nat) : AchievementInv (initialProgress total) := by
  constructor
  · exact List.nodup_nil
  · intro p hp hge
    fin_cases hp <;> simp [initialProgress] at hge

lemma achievementInv_apply (catalog : List CatalogEntry) (s : LearnerProgress) (op : ServerOp)
    (h : AchievementInv s) : AchievementInv (applyOp catalog s op) := by
  cases op with
  | complete name pos =>
    by_cases h1 : name = ""
    · simpa [applyOp, markCompleted, h1] using h
    · by_cases h2 : checkPrerequisites name s.completedResources = true
      · show AchievementInv (markCompleted s name pos).2
        rw [markCompleted_success_eq s name pos h1 h2]
        exact ⟨checkAchievements_nodup _ h.1,
          fun p hp hge => checkAchievements_coverage _ p hp hge⟩
      · simpa [applyOp, markCompleted, h1, h2] using h
  | suggestPath coin pos goal => exact ⟨h.1, h.2⟩
  | setGoal g =>
    by_cases h1 : (List.lookup g learningPaths).isNone
    · simpa [applyOp, setGoalOp, h1] using h
    · have : applyOp catalog s (.setGoal g) = { s with currentGoal := g } := by
        simp [applyOp, setGoalOp, h1]
      rw [this]
      exact ⟨h.1, h.2⟩
  | reset => exact achievementInv_initial catalog.length

lemma achievementInv_runOps (catalog : List CatalogEntry) (ops : List ServerOp) :
    ∀ s, AchievementInv s → AchievementInv (runOps catalog ops s) := by
  induction ops with
  | nil => exact fun s h => h
  | cons op rest ih => exact fun s h => ih _ (achievementInv_apply catalog s op h)

/-- C8: over every request sequence from the fresh state, the unlocked
achievement list never contains a duplicate name, every threshold at or below
the completed count has its achievement unlocked (each threshold unlocks it
exactly once — the membership re-check blocks re-unlocking), and no operation
other than the full reset ever removes an unlocked achievement (the list only
ever grows by appending). -/
theorem claim_C8_achievements (catalog : List CatalogEntry) (ops : List ServerOp) :
    (runOps catalog ops (initialProgress catalog.length)).achievements.Nodup ∧
    (∀ p ∈ achievementThresholds,
      (runOps catalog ops (initialProgress catalog.length)).completedResources.length ≥ p.1 →
      p.2 ∈ (runOps catalog ops (initialProgress catalog.length)).achievements) ∧
    (∀ op : ServerOp, op.isReset = false →
      ∃ t, (applyOp catalog (runOps catalog ops (initialProgress catalog.length)) op).achievements
        = (runOps catalog ops (initialProgress catalog.length)).achievements ++ t) := by
  have hinv := achievementInv_runOps catalog ops (initialProgress catalog.length)
    (achievementInv_initial catalog.length)
  exact ⟨hinv.1, hinv.2, fun op h => applyOp_achievements_append catalog _ op h⟩

/-- Witness for C8: after one completion the "First Steps" achievement is
unlocked, the list is duplicate-free, and a further non-reset request only
appends to it. -/
theorem claim_C8_witness :
    (runOps [] [ServerOp.complete "aa" none] (initialProgress 0)).achievements.Nodup ∧
    "First Steps" ∈ (runOps [] [ServerOp.complete "aa" none] (initialProgress 0)).achievements ∧
    (∃ t, (applyOp [] (runOps [] [ServerOp.complete "aa" none] (initialProgress 0))
        (ServerOp.setGoal "basic_logic")).achievements =
      (runOps [] [ServerOp.complete "aa" none] (initialProgress 0)).achievements ++ t) :=
  ⟨(claim_C8_achievements [] [ServerOp.complete "aa" none]).1,
    (claim_C8_achievements [] [ServerOp.complete "aa" none]).2.1 (1, "First Steps")
      (by decide) (by decide),
    (claim_C8_achievements [] [ServerOp.complete "aa" none]).2.2
      (ServerOp.setGoal "basic_logic") rfl⟩

/-! Machinery for C4 and C5: behavior of the two path generators. -/

lemma generateDQNPathAux_length_le (coin : Nat → Bool) (target : GridPos) :
    ∀ (fuel : Nat) (current : GridPos) (steps : Nat),
      (generateDQNPathAux coin target fuel current steps).length ≤ fuel := by
  intro fuel
  induction fuel with
  | zero => intro current steps; simp [generateDQNPathAux]
  | succ fuel ih =>
    intro current steps
    rw [generateDQNPathAux]
    split
    · simp
    · split
      · simp
      · split
        · simpa using Nat.succ_le_succ (ih _ _)
        · split
          · simpa using Nat.succ_le_succ (ih _ _)
          · simp

lemma generatePathToAux_length_le (target : GridPos) :
    ∀ (fuel : Nat) (current : GridPos),
      (generatePathToAux target fuel current).length ≤ fuel := by
  intro fuel
  induction fuel with
  | zero => intro current; simp [generatePathToAux]
  | succ fuel ih =>
    intro current
    rw [generatePathToAux]
    split
    · simp
    · split
      · simpa using Nat.succ_le_succ (ih _)
      · split
        · simpa using Nat.succ_le_succ (ih _)
        · split
          · simpa using Nat.succ_le_succ (ih _)
          · split
            · simpa using Nat.succ_le_succ (ih _)
            · simp

lemma generateDQNPathAux_reaches (coin : Nat → Bool) (target : GridPos)
    (hx19 : target.x ≤ (gridSizeX : Int) - 1) (hy19 : target.y ≤ (gridSizeY : Int) - 1) :
    ∀ (fuel : Nat) (current : GridPos) (steps : Nat),
      current.x ≤ target.x → current.y ≤ target.y →
      (target.x - current.x).toNat + (target.y - current.y).toNat ≤ fuel →
      pathEnd current (generateDQNPathAux coin target fuel current steps) = target ∧
      (generateDQNPathAux coin target fuel current steps).length =
        (target.x - current.x).toNat + (target.y - current.y).toNat ∧
      List.Chain (unitStepToward target) current
        ((generateDQNPathAux coin target fuel current steps).map
          fun st => (⟨st.x, st.y⟩ : GridPos)) := by
  intro fuel
  induction fuel with
  | zero =>
    intro current steps hcx hcy hd
    have hxeq : current.x = target.x := by omega
    have hyeq : current.y = target.y := by omega
    have hct : current = target := by
      cases current
      cases target
      simp_all
    refine ⟨?_, ?_, ?_⟩
    · show pathEnd current [] = target
      exact hct
    · show ([] : List PathStep).length = _
      simp only [List.length_nil]
      omega
    · exact List.Chain.nil
  | succ fuel ih =>
    intro current steps hcx hcy hd
    by_cases hguard : current.x = target.x ∧ current.y = target.y
    · obtain ⟨hg1, hg2⟩ := hguard
      have hE : generateDQNPathAux coin target (fuel + 1) current steps = [] := by
        rw [generateDQNPathAux, if_pos ⟨hg1, hg2⟩]
      rw [hE]
      have hct : current = target := by
        cases current
        cases target
        simp_all
      refine ⟨hct, ?_, List.Chain.nil⟩
      simp only [List.length_nil]
      omega
    · by_cases hxlt : current.x < target.x
      · have hxb : current.x < (gridSizeX : Int) - 1 := by
          have : (gridSizeX : Int) = 20 := by decide
          omega
        by_cases hylt : current.y < target.y
        · have hyb : current.y < (gridSizeY : Int) - 1 := by
            have : (gridSizeY : Int) = 20 := by decide
            omega
          cases hc : coin steps with
          | false =>
            have hE : generateDQNPathAux coin target (fuel + 1) current steps =
                { x := current.x, y := current.y + 1, action := "UP", step := some (steps + 1) }
                  :: generateDQNPathAux coin target fuel ⟨current.x, current.y + 1⟩
                    (steps + 1) := by
              simp [generateDQNPathAux, hguard, hxlt, hylt, hc, hyb]
            rw [hE]
            obtain ⟨ihEnd, ihLen, ihChain⟩ := ih ⟨current.x, current.y + 1⟩ (steps + 1)
              (by show current.x ≤ target.x; omega)
              (by show current.y + 1 ≤ target.y; omega)
              (by show (target.x - current.x).toNat + (target.y - (current.y + 1)).toNat ≤ fuel
                  omega)
            refine ⟨ihEnd, ?_, ?_⟩
            · simp only [List.length_cons, ihLen]
              show (target.x - current.x).toNat + (target.y - (current.y + 1)).toNat + 1 = _
              omega
            · simp only [List.map_cons]
              exact List.chain_cons.mpr ⟨Or.inr ⟨rfl, hylt⟩, ihChain⟩
          | true =>
            have hE : generateDQNPathAux coin target (fuel + 1) current steps =
                { x := current.x + 1, y := current.y, action := "RIGHT",
                  step := some (steps + 1) }
                  :: generateDQNPathAux coin target fuel ⟨current.x + 1, current.y⟩
                    (steps + 1) := by
              simp [generateDQNPathAux, hguard, hxlt, hylt, hc, hxb]
            rw [hE]
            obtain ⟨ihEnd, ihLen, ihChain⟩ := ih ⟨current.x + 1, current.y⟩ (steps + 1)
              (by show current.x + 1 ≤ target.x; omega)
              (by show current.y ≤ target.y; omega)
              (by show (target.x - (current.x + 1)).toNat + (target.y - current.y).toNat ≤ fuel
                  omega)
            refine ⟨ihEnd, ?_, ?_⟩
            · simp only [List.length_cons, ihLen]
              show (target.x - (current.x + 1)).toNat + (target.y - current.y).toNat + 1 = _
              omega
            · simp only [List.map_cons]
              exact List.chain_cons.mpr ⟨Or.inl ⟨rfl, hxlt⟩, ihChain⟩
        · have hE : generateDQNPathAux coin target (fuel + 1) current steps =
              { x := current.x + 1, y := current.y, action := "RIGHT",
                step := some (steps + 1) }
                :: generateDQNPathAux coin target fuel ⟨current.x + 1, current.y⟩
                  (steps + 1) := by
            simp [generateDQNPathAux, hguard, hxlt, hylt, hxb]
          rw [hE]
          obtain ⟨ihEnd, ihLen, ihChain⟩ := ih ⟨current.x + 1, current.y⟩ (steps + 1)
            (by show current.x + 1 ≤ target.x; omega)
            (by show current.y ≤ target.y; omega)
            (by show (target.x - (current.x + 1)).toNat + (target.y - current.y).toNat ≤ fuel
                omega)
          refine ⟨ihEnd, ?_, ?_⟩
          · simp only [List.length_cons, ihLen]
            show (target.x - (current.x + 1)).toNat + (target.y - current.y).toNat + 1 = _
            omega
          · simp only [List.map_cons]
            exact List.chain_cons.mpr ⟨Or.inl ⟨rfl, hxlt⟩, ihChain⟩
      · have hxeq : current.x = target.x := by omega
        have hylt : current.y < target.y := by
          rcases lt_or_eq_of_le hcy with h | h
          · exact h
          · exact absurd ⟨hxeq, h⟩ hguard
        have hyb : current.y < (gridSizeY : Int) - 1 := by
          have : (gridSizeY : Int) = 20 := by decide
          omega
        have hE : generateDQNPathAux coin target (fuel + 1) current steps =
            { x := current.x, y := current.y + 1, action := "UP", step := some (steps + 1) }
              :: generateDQNPathAux coin target fuel ⟨current.x, current.y + 1⟩
                (steps + 1) := by
          simp [generateDQNPathAux, hguard, hxlt, hylt, hyb]
        rw [hE]
        obtain ⟨ihEnd, ihLen, ihChain⟩ := ih ⟨current.x, current.y + 1⟩ (steps + 1)
          (by show current.x ≤ target.x; omega)
          (by show current.y + 1 ≤ target.y; omega)
          (by show (target.x - current.x).toNat + (target.y - (current.y + 1)).toNat ≤ fuel
              omega)
        refine ⟨ihEnd, ?_, ?_⟩
        · simp only [List.length_cons, ihLen]
          show (target.x - current.x).toNat + (target.y - (current.y + 1)).toNat + 1 = _
          omega
        · simp only [List.map_cons]
          exact List.chain_cons.mpr ⟨Or.inr ⟨rfl, hylt⟩, ihChain⟩

lemma generatePathToAux_reaches (target : GridPos) :
    ∀ (fuel : Nat) (current : GridPos),
      (target.x - current.x).natAbs + (target.y - current.y).natAbs ≤ fuel →
      mockPathEnd current (generatePathToAux target fuel current) = target ∧
      (generatePathToAux target fuel current).length =
        (target.x - current.x).natAbs + (target.y - current.y).natAbs := by
  intro fuel
  induction fuel with
  | zero =>
    intro current hd
    have hx : current.x = target.x := by omega
    have hy : current.y = target.y := by omega
    have hct : current = target := by
      cases current
      cases target
      simp_all
    refine ⟨?_, ?_⟩
    · show mockPathEnd current [] = target
      exact hct
    · show ([] : List MockStep).length = _
      simp only [List.length_nil]
      omega
  | succ fuel ih =>
    intro current hd
    by_cases hguard : current.x = target.x ∧ current.y = target.y
    · obtain ⟨hg1, hg2⟩ := hguard
      have hE : generatePathToAux target (fuel + 1) current = [] := by
        rw [generatePathToAux, if_pos ⟨hg1, hg2⟩]
      rw [hE]
      have hct : current = target := by
        cases current
        cases target
        simp_all
      refine ⟨hct, ?_⟩
      simp only [List.length_nil]
      omega
    · by_cases hxlt : current.x < target.x
      · have hE : generatePathToAux target (fuel + 1) current =
            { x := current.x + 1, y := current.y, action := "right" }
              :: generatePathToAux target fuel ⟨current.x + 1, current.y⟩ := by
          simp [generatePathToAux, hguard, hxlt]
        rw [hE]
        obtain ⟨ihEnd, ihLen⟩ := ih ⟨current.x + 1, current.y⟩
          (by show (target.x - (current.x + 1)).natAbs + (target.y - current.y).natAbs ≤ fuel
              omega)
        refine ⟨ihEnd, ?_⟩
        simp only [List.length_cons, ihLen]
        show (target.x - (current.x + 1)).natAbs + (target.y - current.y).natAbs + 1 = _
        omega
      · by_cases hxgt : current.x > target.x
        · have hE : generatePathToAux target (fuel + 1) current =
              { x := current.x - 1, y := current.y, action := "left" }
                :: generatePathToAux target fuel ⟨current.x - 1, current.y⟩ := by
            simp [generatePathToAux, hguard, hxlt, hxgt]
          rw [hE]
          obtain ⟨ihEnd, ihLen⟩ := ih ⟨current.x - 1, current.y⟩
            (by show (target.x - (current.x - 1)).natAbs + (target.y - current.y).natAbs ≤ fuel
                omega)
          refine ⟨ihEnd, ?_⟩
          simp only [List.length_cons, ihLen]
          show (target.x - (current.x - 1)).natAbs + (target.y - current.y).natAbs + 1 = _
          omega
        · have hxeq : current.x = target.x := by omega
          by_cases hylt : current.y < target.y
          · have hE : generatePathToAux target (fuel + 1) current =
                { x := current.x, y := current.y + 1, action := "up" }
                  :: generatePathToAux target fuel ⟨current.x, current.y + 1⟩ := by
              simp [generatePathToAux, hguard, hxlt, hxgt, hylt]
            rw [hE]
            obtain ⟨ihEnd, ihLen⟩ := ih ⟨current.x, current.y + 1⟩
              (by show (target.x - current.x).natAbs + (target.y - (current.y + 1)).natAbs ≤ fuel
                  omega)
            refine ⟨ihEnd, ?_⟩
            simp only [List.length_cons, ihLen]
            show (target.x - current.x).natAbs + (target.y - (current.y + 1)).natAbs + 1 = _
            omega
          · have hygt : current.y > target.y := by
              rcases lt_trichotomy current.y target.y with h | h | h
              · exact absurd h hylt
              · exact absurd ⟨hxeq, h⟩ hguard
              · exact h
            have hE : generatePathToAux target (fuel + 1) current =
                { x := current.x, y := current.y - 1, action := "down" }
                  :: generatePathToAux target fuel ⟨current.x, current.y - 1⟩ := by
              simp [generatePathToAux, hguard, hxlt, hxgt, hylt, hygt]
            rw [hE]
            obtain ⟨ihEnd, ihLen⟩ := ih ⟨current.x, current.y - 1⟩
              (by show (target.x - current.x).natAbs + (target.y - (current.y - 1)).natAbs ≤ fuel
                  omega)
            refine ⟨ihEnd, ?_⟩
            simp only [List.length_cons, ihLen]
            show (target.x - current.x).natAbs + (target.y - (current.y - 1)).natAbs + 1 = _
            omega

/-- C4 counterexample: the enhanced generator only ever moves UP or RIGHT, so
for a target left of the start — here start `(1,0)`, target the in-bounds
origin at Manhattan distance 1 ≤ 20 — it emits no step at all and the path
does not end at the target, whatever the random tie-break does. -/
theorem claim_C4_counterexample :
    generateDQNPath (fun _ => true) ⟨1, 0⟩ ⟨0, 0⟩ = [] ∧
    (0 : Int) ≤ (0 : Int) ∧ (0 : Int) ≤ (gridSizeX : Int) - 1 ∧
    (0 : Int) ≤ (gridSizeY : Int) - 1 ∧
    manhattanDist ⟨1, 0⟩ ⟨0, 0⟩ ≤ maxSteps ∧
    pathEnd ⟨1, 0⟩ (generateDQNPath (fun _ => true) ⟨1, 0⟩ ⟨0, 0⟩) ≠ ⟨0, 0⟩ := by
  decide

/-- C4 (amended): the enhanced generator reaches the target exactly — one
unit move per step along an axis still short of the target, with length equal
to the Manhattan distance — only for targets weakly up-and-right of the
start, in bounds, within the 20-step bound (for every tie-break oracle; the
grid clamp never triggers under these hypotheses).  The mock server's
generator does reach any target within its 50-step distance budget, moving
one axis per step with no clamping. -/
theorem claim_C4_path_amended :
    (∀ (coin : Nat → Bool) (start target : GridPos),
      start.x ≤ target.x → start.y ≤ target.y →
      0 ≤ target.x → target.x ≤ (gridSizeX : Int) - 1 →
      0 ≤ target.y → target.y ≤ (gridSizeY : Int) - 1 →
      manhattanDist start target ≤ maxSteps →
      pathEnd start (generateDQNPath coin start target) = target ∧
      (generateDQNPath coin start target).length = manhattanDist start target ∧
      List.Chain (unitStepToward target) start
        ((generateDQNPath coin start target).map fun st => (⟨st.x, st.y⟩ : GridPos))) ∧
    (∀ start target : GridPos, manhattanDist start target ≤ 50 →
      mockPathEnd start (generatePathTo start target) = target ∧
      (generatePathTo start target).length = manhattanDist start target) := by
  constructor
  · intro coin start target hsx hsy _ hx19 _ hy19 hman
    have hd : (target.x - start.x).toNat + (target.y - start.y).toNat ≤ maxSteps := by
      simp only [manhattanDist] at hman
      omega
    obtain ⟨h1, h2, h3⟩ :=
      generateDQNPathAux_reaches coin target hx19 hy19 maxSteps start 0 hsx hsy hd
    refine ⟨h1, ?_, h3⟩
    rw [show generateDQNPath coin start target =
        generateDQNPathAux coin target maxSteps start 0 from rfl, h2]
    simp only [manhattanDist]
    omega
  · intro start target hman
    have hd : (target.x - start.x).natAbs + (target.y - start.y).natAbs ≤ 51 := by
      simp only [manhattanDist] at hman
      omega
    obtain ⟨h1, h2⟩ := generatePathToAux_reaches target 51 start hd
    refine ⟨h1, ?_⟩
    rw [show generatePathTo start target = generatePathToAux target 51 start from rfl, h2]
    simp only [manhattanDist]
    omega

/-- Witness for C4 (amended): a concrete up-right walk of the enhanced
generator reaching `(3,2)` from the origin, and a concrete mock walk reaching
`(2,3)`. -/
theorem claim_C4_witness :
    (pathEnd ⟨0, 0⟩ (generateDQNPath (fun _ => false) ⟨0, 0⟩ ⟨3, 2⟩) = ⟨3, 2⟩ ∧
      (generateDQNPath (fun _ => false) ⟨0, 0⟩ ⟨3, 2⟩).length =
        manhattanDist ⟨0, 0⟩ ⟨3, 2⟩ ∧
      List.Chain (unitStepToward ⟨3, 2⟩) ⟨0, 0⟩
        ((generateDQNPath (fun _ => false) ⟨0, 0⟩ ⟨3, 2⟩).map
          fun st => (⟨st.x, st.y⟩ : GridPos))) ∧
    (mockPathEnd ⟨0, 0⟩ (generatePathTo ⟨0, 0⟩ ⟨2, 3⟩) = ⟨2, 3⟩ ∧
      (generatePathTo ⟨0, 0⟩ ⟨2, 3⟩).length = manhattanDist ⟨0, 0⟩ ⟨2, 3⟩) :=
  ⟨claim_C4_path_amended.1 (fun _ => false) ⟨0, 0⟩ ⟨3, 2⟩ (by decide) (by decide) (by decide)
      (by decide) (by decide) (by decide) (by decide),
    claim_C4_path_amended.2 ⟨0, 0⟩ ⟨2, 3⟩ (by decide)⟩

/-- C5 counterexample: the mock generator's cutoff `if (path.length > 50)
break` runs after the push, so a target at distance more than 50 — here
`(60,0)` from the origin — yields 51 emitted steps, exceeding the configured
bound of 50. -/
theorem claim_C5_counterexample :
    (generatePathTo ⟨0, 0⟩ ⟨60, 0⟩).length = 51 ∧
    ¬ (generatePathTo ⟨0, 0⟩ ⟨60, 0⟩).length ≤ 50 := by
  decide

/-- C5 (amended): both generators terminate on every input (they are total
functions); the enhanced generator emits at most its configured bound of
`maxSteps = 20` steps (a constant within 20–50), while the mock generator can
emit up to 51 steps — one more than its configured bound of 50. -/
theorem claim_C5_step_bounds :
    (∀ (coin : Nat → Bool) (start target : GridPos),
      (generateDQNPath coin start target).length ≤ maxSteps) ∧
    20 ≤ maxSteps ∧ maxSteps ≤ 50 ∧
    (∀ start target : GridPos, (generatePathTo start target).length ≤ 51) := by
  refine ⟨fun coin start target => ?_, by decide, by decide, fun start target => ?_⟩
  · exact generateDQNPathAux_length_le coin target maxSteps start 0
  · exact generatePathToAux_length_le target 51 start

/-! Machinery for C9: bounds of the two position computations. -/

lemma foldl_min_le {l : List Int} {a : Int} : ∀ x, x = a ∨ x ∈ l → l.foldl min a ≤ x := by
  induction l generalizing a with
  | nil =>
    intro x hx
    rcases hx with rfl | h
    · exact le_refl x
    · cases h
  | cons b rest ih =>
    intro x hx
    have hstep : (b :: rest).foldl min a = rest.foldl min (min a b) := rfl
    rw [hstep]
    rcases hx with rfl | h
    · exact le_trans (ih (min x b) (Or.inl rfl)) (min_le_left _ _)
    · rcases List.mem_cons.mp h with rfl | h2
      · exact le_trans (ih (min a x) (Or.inl rfl)) (min_le_right _ _)
      · exact ih x (Or.inr h2)

/-- C9 counterexample: the mock server's `getResourcePositions` scales by 100
and only shifts by the componentwise minimum, with no clamping: a catalog
with normalized coordinates 0 and 0.99 yields the grid cell `(99,99)`, far
outside `[0, gridSize − 1] = [0, 19]`. -/
theorem claim_C9_counterexample :
    (⟨"B", 99, 99⟩ : ResourcePos) ∈
      mockGetResourcePositions [⟨"A", 0, 0⟩, ⟨"B", 99/100, 99/100⟩] ∧
    ¬ ((99 : Int) ≤ (gridSizeX : Int) - 1) := by
  have hc : mockGetResourcePositions [⟨"A", 0, 0⟩, ⟨"B", 99/100, 99/100⟩] =
      [⟨"A", 0, 0⟩, ⟨"B", 99, 99⟩] := by
    norm_num [mockGetResourcePositions, min_def]
  rw [hc]
  decide

/-- C9 (amended): every element of the enhanced model's `positions()` is
scaled by the grid dimension and clamped, so its grid cell satisfies
`0 ≤ x ≤ gridSizeX−1` and `0 ≤ y ≤ gridSizeY−1`; the mock server's
`positions()` however only shifts its 100-scaled cells to be componentwise
nonnegative and guarantees no upper bound. -/
theorem claim_C9_positions_amended :
    (∀ (catalog : List CatalogEntry) (r : ResourcePos), r ∈ getResourcePositions catalog →
      0 ≤ r.x ∧ r.x ≤ (gridSizeX : Int) - 1 ∧ 0 ≤ r.y ∧ r.y ≤ (gridSizeY : Int) - 1) ∧
    (∀ (catalog : List CatalogEntry) (r : ResourcePos), r ∈ mockGetResourcePositions catalog →
      0 ≤ r.x ∧ 0 ≤ r.y) := by
  constructor
  · intro catalog r hr
    obtain ⟨e, _, rfl⟩ := List.mem_map.mp hr
    refine ⟨le_max_left 0 _, ?_, le_max_left 0 _, ?_⟩
    · exact max_le (by decide) (min_le_right _ _)
    · exact max_le (by decide) (min_le_right _ _)
  · intro catalog r hr
    simp only [mockGetResourcePositions] at hr
    cases hcat : catalog.map (fun e =>
        ({ name := e.name, x := ⌊e.xCoord * (100 : ℚ)⌋, y := ⌊e.yCoord * (100 : ℚ)⌋ }
          : ResourcePos)) with
    | nil =>
      rw [hcat] at hr
      cases hr
    | cons r0 rest =>
      rw [hcat] at hr
      obtain ⟨b, hb, rfl⟩ := List.mem_map.mp hr
      constructor
      · show 0 ≤ b.x - (rest.map (fun q => q.x)).foldl min r0.x
        have : (rest.map (fun q => q.x)).foldl min r0.x ≤ b.x := by
          rcases List.mem_cons.mp hb with rfl | h2
          · exact foldl_min_le _ (Or.inl rfl)
          · exact foldl_min_le _ (Or.inr (List.mem_map_of_mem _ h2))
        omega
      · show 0 ≤ b.y - (rest.map (fun q => q.y)).foldl min r0.y
        have : (rest.map (fun q => q.y)).foldl min r0.y ≤ b.y := by
          rcases List.mem_cons.mp hb with rfl | h2
          · exact foldl_min_le _ (Or.inl rfl)
          · exact foldl_min_le _ (Or.inr (List.mem_map_of_mem _ h2))
        omega

/-- Witness for C9 (amended): a one-resource catalog at normalized
`(0.5, 0.75)` lands on the in-bounds cell `(10,15)` in the enhanced model; a
one-resource mock catalog lands on the nonnegative cell `(0,0)`. -/
theorem claim_C9_witness :
    (0 ≤ (⟨"A", 10, 15⟩ : ResourcePos).x ∧
      (⟨"A", 10, 15⟩ : ResourcePos).x ≤ (gridSizeX : Int) - 1 ∧
      0 ≤ (⟨"A", 10, 15⟩ : ResourcePos).y ∧
      (⟨"A", 10, 15⟩ : ResourcePos).y ≤ (gridSizeY : Int) - 1) ∧
    (0 ≤ (⟨"A", 0, 0⟩ : ResourcePos).x ∧ 0 ≤ (⟨"A", 0, 0⟩ : ResourcePos).y) :=
  ⟨claim_C9_positions_amended.1 [⟨"A", 1/2, 3/4⟩] ⟨"A", 10, 15⟩
      (by norm_num [getResourcePositions, gridSizeX, gridSizeY, min_def, max_def]),
    claim_C9_positions_amended.2 [⟨"A", 1/4, 1/4⟩] ⟨"A", 0, 0⟩
      (by norm_num [mockGetResourcePositions, min_def])⟩
